import Mathlib

/-!
Verification of the Profiteer.io profitability-analyzer core.

The development shallowly embeds:
* the client-side TTL cache (`frontend/js/storage/cache.js`): `cacheGet`,
  `cacheSet`, `clearExpired` over an association-list model of `localStorage`;
* the analysis-history store (`store.saveAnalysis` in the same file);
* the analyzer page flow (`pages/analyzer.js`, `runAnalysis`): cache lookup,
  fetch, the no-results / failure / rendered outcomes, cache write-back and
  history save;
* the formatting helpers (`utils/format.js`): `formatPercent`;
* the backend fee/profit calculator, orchestrator and ranking, which are
  described by the specification (fee schedules, net-profit identity,
  ranking order, no-data outcome).

Timestamps are integer milliseconds; monetary amounts are integer cents.
-/

/-- JSON values, as stored by `localStorage` (strings are JSON-serialized
on write and parsed on read). -/
inductive Json where
  | null
  | bool (b : Bool)
  | num (q : ℚ)
  | str (s : String)
  | arr (elems : List Json)
  | obj (fields : List (String × Json))

mutual

/-- Serialization of a JSON value, modelling `JSON.stringify`. -/
def serialize : Json → String
  | .null => "null"
  | .bool b => if b then "true" else "false"
  | .num q => toString q
  | .str s => "\"" ++ s ++ "\""
  | .arr es => "[" ++ serializeList es ++ "]"
  | .obj fs => "\x7b" ++ serializeFields fs ++ "\x7d"

/-- Comma-separated serialization of a JSON array body. -/
def serializeList : List Json → String
  | [] => ""
  | [j] => serialize j
  | j :: rest => serialize j ++ "," ++ serializeList rest

/-- Comma-separated serialization of a JSON object body. -/
def serializeFields : List (String × Json) → String
  | [] => ""
  | [f] => "\"" ++ f.1 ++ "\":" ++ serialize f.2
  | f :: rest => "\"" ++ f.1 ++ "\":" ++ serialize f.2 ++ "," ++ serializeFields rest

end

/-- One raw `localStorage` slot holding a cache entry, as `cache.get` sees it
after `JSON.parse`: either a well-formed `{ data, expires }` entry, or a string
whose parse throws (`bad`).  The payload type `α` is the `data` field. -/
inductive Stored (α : Type) where
  | good (data : α) (expires : ℤ)
  | bad
deriving DecidableEq

/-- The `localStorage` key/value map, as an association list (first binding
for a key wins, as `setItem` replaces the binding). -/
def Store (α : Type) : Type := List (String × Stored α)

/-- Key prefix used by the cache layer (`CACHE_PREFIX` in cache.js). -/
def CACHE_PREFIX : String := "profiteer_cache_"

/-- Default cache TTL in milliseconds (`DEFAULT_TTL = 5 * 60 * 1000`). -/
def DEFAULT_TTL : ℤ := 5 * 60 * 1000

/-- `localStorage.getItem`. -/
def getItem {α : Type} (st : Store α) (k : String) : Option (Stored α) :=
  (st.find? (fun e => e.1 == k)).map (fun e => e.2)

/-- Removal of every binding of key `k` (`localStorage.removeItem`). -/
def removeItem {α : Type} (st : Store α) (k : String) : Store α :=
  st.filter (fun e => e.1 != k)

/-- `localStorage.setItem`: replaces the binding of `k`. -/
def setItem {α : Type} (st : Store α) (k : String) (v : Stored α) : Store α :=
  (k, v) :: removeItem st k

/-- The predicate under which `clearExpired` keeps a slot: slots outside the
cache prefix are untouched; prefixed slots survive only if they parse and are
unexpired (cache.js removes on `now > entry.expires` and on parse error). -/
def keepSlot {α : Type} (now : ℤ) (e : String × Stored α) : Bool :=
  if e.1.startsWith CACHE_PREFIX then
    match e.2 with
    | .good _ expires => decide (now ≤ expires)
    | .bad => false
  else true

/-- `cache.clearExpired`: removes every prefixed slot that is expired or
fails to parse. -/
def clearExpired {α : Type} (st : Store α) (now : ℤ) : Store α :=
  st.filter (keepSlot now)

/-- `cache.get(key)`: returns `none` on absent, corrupt, or expired slots
(removing an expired slot), and the stored payload otherwise.  The second
component is the storage state after the call. -/
def cacheGet {α : Type} (st : Store α) (key : String) (now : ℤ) :
    Option α × Store α :=
  match getItem st (CACHE_PREFIX ++ key) with
  | none => (none, st)
  | some .bad => (none, st)
  | some (.good d expires) =>
      if now > expires then (none, removeItem st (CACHE_PREFIX ++ key))
      else (some d, st)

/-- `cache.set(key, data, ttl)`.  `quota` models whether `localStorage.setItem`
succeeds on the given store (a failing write throws `QuotaExceededError`,
which the code catches): on failure the code clears expired entries and
retries once, then gives up silently. -/
def cacheSet {α : Type} (quota : Store α → String → Stored α → Bool)
    (st : Store α) (key : String) (data : α) (now ttl : ℤ) : Store α :=
  let k := CACHE_PREFIX ++ key
  let entry : Stored α := .good data (now + ttl)
  if quota st k entry then setItem st k entry
  else
    let st' := clearExpired st now
    if quota st' k entry then setItem st' k entry else st'

/-- One analysis-history entry as saved by `store.saveAnalysis`
(`{ ...analysis, savedAt }`). -/
structure AnalysisEntry where
  query : String
  purchase_price : Option ℚ
  condition : String
  best_marketplace : Option String
  best_profit : Option ℤ
  savedAt : ℤ
deriving DecidableEq

/-- `store.saveAnalysis`: unshift the new entry onto the history, then
truncate to the last 50 (`history.length = 50`). -/
def saveAnalysisHistory (hist : List AnalysisEntry) (e : AnalysisEntry) :
    List AnalysisEntry :=
  List.take 50 (e :: hist)

/-- Rendering of a rational to one decimal place, modelling
`Number.prototype.toFixed(1)` (round to the nearest tenth). -/
def toFixed1 (q : ℚ) : String :=
  let t : ℤ := round (q * 10)
  let sign := if t < 0 then "-" else ""
  sign ++ toString (t.natAbs / 10) ++ "." ++ toString (t.natAbs % 10)

/-- `formatPercent` from utils/format.js: `null` (and `NaN`, which has no
rational counterpart) renders as "0%", otherwise `value.toFixed(1) + "%"`. -/
def formatPercent (value : Option ℚ) : String :=
  match value with
  | none => "0%"
  | some q => toFixed1 q ++ "%"

/-- Item condition enum of the request schema. -/
inductive Condition where
  | new | open_box | refurbished | used | for_parts
deriving DecidableEq

/-- Modelled from the spec: the `AnalysisRequest` record of §3 / the
`POST /analyzer/analyze` body (the backend Pydantic schema is not in the
sources).  Monetary amounts in cents; `packaging_cost` defaults to $1.50. -/
structure AnalysisRequest where
  query : String
  purchase_price : Option ℤ
  condition : Condition := .new
  weight_oz : Option ℚ
  shipping_cost : Option ℤ
  packaging_cost : ℤ := 150
deriving DecidableEq

/-- Profitability tier enum. -/
inductive Profitability where
  | strong | marginal | loss
deriving DecidableEq

/-- Modelled from the spec: the response-only `MarketplaceResult` record of
§3/§6 (the backend schema is not in the sources).  `profit_margin` and `roi`
are percentages; `roi` is `none` when undefined. -/
structure MarketplaceResult where
  marketplace : String
  avg_sold_price : ℤ
  active_listing_price : Option ℤ
  platform_fee : ℤ
  payment_processing_fee : ℤ
  estimated_shipping : ℤ
  packaging_cost : ℤ
  net_profit : ℤ
  profit_margin : Option ℚ
  roi : Option ℚ
  sales_volume : ℕ
  profitability : Profitability
deriving DecidableEq

/-- Modelled from the spec: a per-marketplace fee schedule entry,
"percentage-of-sale plus optional fixed component" (§4.5); the backend
fee table (`utils/fees.py`) is not in the sources. -/
structure FeeSchedule where
  pct : ℚ
  fixed : ℤ := 0

/-- Modelled from the spec: the dependency-injected configuration of the
orchestrator (§9): fee schedules per marketplace, the collaborator shipping
estimator `(weight_oz, condition) -> cost` (§6), and the configurable
strong-tier margin threshold (§4.6). -/
structure AnalyzerConfig where
  platformFee : String → FeeSchedule
  paymentFee : String → FeeSchedule
  shipEstimate : Option ℚ → Condition → ℤ
  strongMargin : ℚ

/-- Adapter outcome status enum (§4.2). -/
inductive ScrapeStatus where
  | ok | empty | blocked | rate_limited | timed_out | parse_error
deriving DecidableEq

/-- Modelled from the spec: one raw price observation (§3); only the price
in cents matters to the calculator. -/
structure Observation where
  price : ℤ
deriving DecidableEq

/-- Modelled from the spec: the `ScrapeResult` adapter contract of §4.2
(the backend `schemas/scraper.py` is not in the sources). -/
structure ScrapeResult where
  observations : List Observation
  status : ScrapeStatus
deriving DecidableEq

/-- Modelled from the spec: a marketplace contributes iff its adapter
returned `ok` with at least one observation (§4.3 step 4). -/
def contributing (r : ScrapeResult) : Bool :=
  decide (r.status = .ok) && !r.observations.isEmpty

/-- Rounding a rational amount of cents to whole cents, at the output
boundary only (§4.5). -/
def roundCents (q : ℚ) : ℤ := round q

/-- Modelled from the spec: tier classification from profit margin against
the configurable thresholds: loss at or below zero, strong above the upper
bound, marginal between (§4.6). -/
def classify (cfg : AnalyzerConfig) (margin : ℚ) : Profitability :=
  if margin ≤ 0 then .loss
  else if cfg.strongMargin < margin then .strong
  else .marginal

/-- Modelled from the spec: the pure Fee & Profit Calculator of §4.5 (the
backend `services/analyzer.py` / `utils/fees.py` are not in the sources).
Average sold price is the mean of the observed prices; platform and payment
fees come from the marketplace's schedule; shipping defaults to the
weight-based estimate; `net_profit` is the §3 invariant expression with
`purchase_price` defaulting to 0; `roi` is `none` (never a division) when
`purchase_price` is 0 or absent. -/
def computeResult (cfg : AnalyzerConfig) (req : AnalysisRequest)
    (mkt : String) (obs : List Observation) : MarketplaceResult :=
  let prices := obs.map (fun o => o.price)
  let avg : ℤ := roundCents ((prices.sum : ℚ) / (prices.length : ℚ))
  let pf : ℤ := roundCents ((cfg.platformFee mkt).pct * avg) + (cfg.platformFee mkt).fixed
  let ppf : ℤ := roundCents ((cfg.paymentFee mkt).pct * avg) + (cfg.paymentFee mkt).fixed
  let ship : ℤ := req.shipping_cost.getD (cfg.shipEstimate req.weight_oz req.condition)
  let pack : ℤ := req.packaging_cost
  let net : ℤ := avg - pf - ppf - ship - pack - req.purchase_price.getD 0
  let margin : Option ℚ := if avg = 0 then none else some ((net : ℚ) / (avg : ℚ) * 100)
  { marketplace := mkt
    avg_sold_price := avg
    active_listing_price := none
    platform_fee := pf
    payment_processing_fee := ppf
    estimated_shipping := ship
    packaging_cost := pack
    net_profit := net
    profit_margin := margin
    roi :=
      match req.purchase_price with
      | none => none
      | some p => if p = 0 then none else some ((net : ℚ) / (p : ℚ) * 100)
    sales_volume := obs.length
    profitability := classify cfg (margin.getD 0) }

/-- Modelled from the spec: the ranking order of §4.6 — descending by
`net_profit`, ties broken by `sales_volume` descending, then by marketplace
name ascending. -/
def rankBefore (a b : MarketplaceResult) : Prop :=
  b.net_profit < a.net_profit ∨
    (a.net_profit = b.net_profit ∧
      (b.sales_volume < a.sales_volume ∨
        (a.sales_volume = b.sales_volume ∧ a.marketplace ≤ b.marketplace)))

instance : DecidableRel rankBefore := fun a b => by
  unfold rankBefore; infer_instance

instance : IsTotal MarketplaceResult rankBefore where
  total a b := by
    unfold rankBefore
    rcases lt_trichotomy a.net_profit b.net_profit with h | h | h
    · exact Or.inr (Or.inl h)
    · rcases lt_trichotomy a.sales_volume b.sales_volume with h' | h' | h'
      · exact Or.inr (Or.inr ⟨h.symm, Or.inl h'⟩)
      · rcases le_total a.marketplace b.marketplace with h'' | h''
        · exact Or.inl (Or.inr ⟨h, Or.inr ⟨h', h''⟩⟩)
        · exact Or.inr (Or.inr ⟨h.symm, Or.inr ⟨h'.symm, h''⟩⟩)
      · exact Or.inl (Or.inr ⟨h, Or.inl h'⟩)
    · exact Or.inl (Or.inl h)

instance : IsTrans MarketplaceResult rankBefore where
  trans a b c hab hbc := by
    unfold rankBefore at *
    rcases hab with h1 | ⟨e1, h1⟩
    · rcases hbc with h2 | ⟨e2, h2⟩
      · exact Or.inl (h2.trans h1)
      · exact Or.inl (e2 ▸ h1)
    · rcases hbc with h2 | ⟨e2, h2⟩
      · exact Or.inl (e1 ▸ h2)
      · refine Or.inr ⟨e1.trans e2, ?_⟩
        rcases h1 with h1 | ⟨v1, h1⟩
        · rcases h2 with h2 | ⟨v2, h2⟩
          · exact Or.inl (h2.trans h1)
          · exact Or.inl (v2 ▸ h1)
        · rcases h2 with h2 | ⟨v2, h2⟩
          · exact Or.inl (v1 ▸ h2)
          · exact Or.inr ⟨v1.trans v2, h1.trans h2⟩

/-- Modelled from the spec: `rank` (§4.6) sorts marketplace results by
`rankBefore`, deterministically. -/
def rank (results : List MarketplaceResult) : List MarketplaceResult :=
  List.insertionSort rankBefore results

/-- Request-level analysis failure outcomes (§7: no-data and validation). -/
inductive AnalyzeError where
  | noData | validation
deriving DecidableEq

/-- Modelled from the spec: the §6 `ProfitabilityResponse` (the backend
schema is not in the sources). -/
structure AnalyzeResponse where
  item_name : String
  item_image : Option String := none
  purchase_price : Option ℤ
  best_marketplace : String
  best_profit : ℤ
  marketplaces : List MarketplaceResult
deriving DecidableEq

/-- Modelled from the spec: the Scrape Orchestrator's aggregation steps 4
and 6 of §4.3 (the backend `services/analyzer.py` is not in the sources),
applied to the collected per-adapter outcomes: keep contributing
marketplaces, compute each profit breakdown, rank. -/
def analyzeResults (cfg : AnalyzerConfig) (req : AnalysisRequest)
    (outcomes : List (String × ScrapeResult)) : List MarketplaceResult :=
  rank ((outcomes.filter (fun o => contributing o.2)).map
    (fun o => computeResult cfg req o.1 o.2.observations))

/-- Modelled from the spec: response assembly (§4.3 step 5, §6): if zero
marketplaces contributed the call fails with the no-data outcome; otherwise
`best_marketplace`/`best_profit` are the first ranked element's fields. -/
def analyze (cfg : AnalyzerConfig) (req : AnalysisRequest)
    (outcomes : List (String × ScrapeResult)) :
    Except AnalyzeError AnalyzeResponse :=
  match analyzeResults cfg req outcomes with
  | [] => .error .noData
  | best :: rest =>
      .ok { item_name := req.query
            purchase_price := req.purchase_price
            best_marketplace := best.marketplace
            best_profit := best.net_profit
            marketplaces := best :: rest }

/-- The analysis payload as the analyzer page sees it (`data` in
`runAnalysis`, pages/analyzer.js): the page only reads `marketplaces`
(which the no-results check treats as possibly absent), `best_marketplace`
and `best_profit`. -/
structure PageData where
  marketplaces : Option (List MarketplaceResult)
  best_marketplace : Option String
  best_profit : Option ℤ
deriving DecidableEq

/-- Visible outcome of one `runAnalysis` call on the analyzer page: results
rendered, the "Analysis failed" error state, or the "No results found"
empty state. -/
inductive Outcome where
  | rendered (d : PageData)
  | failed (msg : String)
  | noResults
deriving DecidableEq

/-- State after one `runAnalysis` call: the client cache, the analysis
history, the rendered outcome, and whether `analyzeItem` was invoked. -/
structure RunState where
  cache : Store PageData
  history : List AnalysisEntry
  outcome : Outcome
  fetched : Bool

/-- The client cache key of pages/analyzer.js line 237:
`analysis_${query.toLowerCase()}_${price}_${condition}` (`priceRepr` is the
string interpolation of the price, "null" when absent). -/
def cacheKey (query priceRepr condition : String) : String :=
  "analysis_" ++ query.toLower ++ "_" ++ priceRepr ++ "_" ++ condition

/-- The key derived on the form-submit path: the submitted query is trimmed
(`queryInput.value.trim()`, line 114) before `runAnalysis` builds the key. -/
def submitKey (rawQuery priceRepr condition : String) : String :=
  cacheKey rawQuery.trim priceRepr condition

/-- `runAnalysis` of pages/analyzer.js (lines 205-314), as a state
transformer.  `fetch` is the outcome `analyzeItem` would produce if invoked;
`quota` is the storage-write oracle of `cacheSet`.  On a cache hit the
cached payload is rendered and the fetch is skipped; a fetch error renders
the failure state; an absent or empty `marketplaces` renders the no-results
state without caching or saving; otherwise the payload is cached
(default TTL), saved to history, and rendered. -/
def runAnalysis (quota : Store PageData → String → Stored PageData → Bool)
    (st : Store PageData) (hist : List AnalysisEntry)
    (fetch : Except String PageData)
    (query priceRepr : String) (price : Option ℚ) (condition : String)
    (now : ℤ) : RunState :=
  let key := cacheKey query priceRepr condition
  match cacheGet st key now with
  | (some d, st') => ⟨st', hist, .rendered d, false⟩
  | (none, st') =>
      match fetch with
      | .error msg => ⟨st', hist, .failed msg, true⟩
      | .ok data =>
          if (data.marketplaces.getD []).isEmpty then
            ⟨st', hist, .noResults, true⟩
          else
            ⟨cacheSet quota st' key data now DEFAULT_TTL,
             saveAnalysisHistory hist
               ⟨query, price, condition, data.best_marketplace,
                data.best_profit, now⟩,
             .rendered data, true⟩

/-- The average-ROI stat of `renderResults` (pages/analyzer.js lines
355-359): filter marketplaces with non-null `roi`, average them, 0 when
none remain. -/
def avgRoi (mps : List MarketplaceResult) : ℚ :=
  let roiValues := mps.filter (fun mp => mp.roi.isSome)
  if roiValues.isEmpty then 0
  else (roiValues.map (fun mp => mp.roi.getD 0)).sum / (roiValues.length : ℚ)

/-! ### Helper lemmas -/

theorem find?_filter_of_found {α : Type} {p q : α → Bool} :
    ∀ {l : List α} {x : α}, l.find? q = some x → p x = true →
      (l.filter p).find? q = some x := by
  intro l
  induction l with
  | nil => intro x h _; simp [List.find?] at h
  | cons a t ih =>
      intro x h hp
      by_cases hq : q a
      · rw [List.find?_cons_of_pos _ hq] at h
        obtain rfl : a = x := by injection h
        rw [List.filter_cons_of_pos hp]
        exact List.find?_cons_of_pos _ hq
      · rw [List.find?_cons_of_neg _ (by simpa using hq)] at h
        by_cases hpa : p a
        · rw [List.filter_cons_of_pos hpa]
          rw [List.find?_cons_of_neg _ (by simpa using hq)]
          exact ih h hp
        · rw [List.filter_cons_of_neg (by simpa using hpa)]
          exact ih h hp

theorem find?_filter_congr {α : Type} {p q : α → Bool}
    (hpq : ∀ e, q e = true → p e = true) :
    ∀ l : List α, (l.filter p).find? q = l.find? q := by
  intro l
  induction l with
  | nil => simp
  | cons a t ih =>
      by_cases hpa : p a
      · rw [List.filter_cons_of_pos hpa]
        by_cases hq : q a
        · rw [List.find?_cons_of_pos _ hq, List.find?_cons_of_pos _ hq]
        · rw [List.find?_cons_of_neg _ (by simpa using hq),
            List.find?_cons_of_neg _ (by simpa using hq)]
          exact ih
      · have hq : ¬ q a = true := fun h => hpa (hpq a h)
        rw [List.filter_cons_of_neg (by simpa using hpa)]
        rw [List.find?_cons_of_neg _ (by simpa using hq)]
        exact ih

theorem getItem_setItem_self {α : Type} (st : Store α) (k : String)
    (v : Stored α) : getItem (setItem st k v) k = some v := by
  simp [getItem, setItem, List.find?]

theorem getItem_setItem_ne {α : Type} (st : Store α) {k k' : String}
    (v : Stored α) (h : k' ≠ k) :
    getItem (setItem st k v) k' = getItem st k' := by
  unfold getItem setItem removeItem
  rw [List.find?_cons_of_neg _ (by simp [h.symm])]
  rw [find?_filter_congr]
  intro e he
  simp only [beq_iff_eq] at he
  simp [bne_iff_ne, he, h]

theorem keepSlot_good {α : Type} {now expires : ℤ} (hle : now ≤ expires)
    (k : String) (d : α) : keepSlot now (k, Stored.good d expires) = true := by
  unfold keepSlot
  by_cases hpre : k.startsWith CACHE_PREFIX <;> simp [hpre, hle]

theorem getItem_clearExpired_good {α : Type} (st : Store α) (k : String)
    {d : α} {expires now : ℤ} (h : getItem st k = some (.good d expires))
    (hle : now ≤ expires) :
    getItem (clearExpired st now) k = some (.good d expires) := by
  unfold getItem at h ⊢
  obtain ⟨e, hfind, he2⟩ := Option.map_eq_some'.mp h
  unfold clearExpired
  rw [find?_filter_of_found hfind]
  · simp [he2]
  · obtain ⟨k₀, v₀⟩ := e
    simp only at he2
    subst he2
    exact keepSlot_good hle k₀ d

theorem mem_rank {x : MarketplaceResult} {l : List MarketplaceResult} :
    x ∈ rank l ↔ x ∈ l := by
  unfold rank
  exact List.mem_insertionSort rankBefore

theorem sorted_rank (l : List MarketplaceResult) :
    List.Sorted rankBefore (rank l) :=
  List.sorted_insertionSort rankBefore l

theorem rank_eq_nil_iff {l : List MarketplaceResult} : rank l = [] ↔ l = [] := by
  rw [← List.length_eq_zero, ← List.length_eq_zero]
  unfold rank
  rw [List.length_insertionSort]

theorem analyze_ok_elim {cfg : AnalyzerConfig} {req : AnalysisRequest}
    {outcomes : List (String × ScrapeResult)} {resp : AnalyzeResponse}
    (hok : analyze cfg req outcomes = .ok resp) :
    ∃ best rest, analyzeResults cfg req outcomes = best :: rest ∧
      resp = { item_name := req.query, purchase_price := req.purchase_price,
               best_marketplace := best.marketplace,
               best_profit := best.net_profit,
               marketplaces := best :: rest } := by
  unfold analyze at hok
  rcases h : analyzeResults cfg req outcomes with _ | ⟨b, t⟩
  · rw [h] at hok; simp at hok
  · rw [h] at hok
    simp only [Except.ok.injEq] at hok
    exact ⟨b, t, rfl, hok.symm⟩

theorem computeResult_net (cfg : AnalyzerConfig) (req : AnalysisRequest)
    (mkt : String) (obs : List Observation) :
    (computeResult cfg req mkt obs).net_profit =
      (computeResult cfg req mkt obs).avg_sold_price
        - (computeResult cfg req mkt obs).platform_fee
        - (computeResult cfg req mkt obs).payment_processing_fee
        - (computeResult cfg req mkt obs).estimated_shipping
        - (computeResult cfg req mkt obs).packaging_cost
        - req.purchase_price.getD 0 := rfl

theorem computeResult_roi_none (cfg : AnalyzerConfig) (req : AnalysisRequest)
    (mkt : String) (obs : List Observation)
    (h : req.purchase_price = none ∨ req.purchase_price = some 0) :
    (computeResult cfg req mkt obs).roi = none := by
  rcases h with h | h <;> simp [computeResult, h]

/-! ### Concrete inputs used by the witnesses -/

/-- A sample configuration: 13.25% + $0.30 platform fee, 2.9% + $0.30
payment fee, flat $8.80 shipping estimate, 30% strong threshold. -/
def cfg0 : AnalyzerConfig :=
  { platformFee := fun _ => { pct := 1325/10000, fixed := 30 }
    paymentFee := fun _ => { pct := 29/1000, fixed := 30 }
    shipEstimate := fun _ _ => 880
    strongMargin := 30 }

def req0 : AnalysisRequest :=
  { query := "pokemon 151 booster bundle"
    purchase_price := some 2500
    weight_oz := some 8
    shipping_cost := none }

/-- Sample adapter outcomes: one contributing marketplace, one blocked. -/
def outs0 : List (String × ScrapeResult) :=
  [("eBay", { observations := [⟨33704⟩, ⟨33704⟩], status := .ok }),
   ("Mercari", { observations := [], status := .blocked })]

def resp0 : AnalyzeResponse :=
  (analyze cfg0 req0 outs0).toOption.getD
    { item_name := "", purchase_price := none, best_marketplace := "",
      best_profit := 0, marketplaces := [] }

def r0 : MarketplaceResult :=
  computeResult cfg0 req0 "eBay" [⟨33704⟩, ⟨33704⟩]

def req1 : AnalysisRequest :=
  { query := "pokemon 151 booster bundle"
    purchase_price := none
    weight_oz := some 8
    shipping_cost := none }

def resp1 : AnalyzeResponse :=
  (analyze cfg0 req1 outs0).toOption.getD
    { item_name := "", purchase_price := none, best_marketplace := "",
      best_profit := 0, marketplaces := [] }

def r1 : MarketplaceResult :=
  computeResult cfg0 req1 "eBay" [⟨33704⟩, ⟨33704⟩]

/-! ### Claims -/

/-- C1: for every `MarketplaceResult` element returned by the analyze
operation, `net_profit` equals `avg_sold_price` minus `platform_fee` minus
`payment_processing_fee` minus `estimated_shipping` minus `packaging_cost`
minus `purchase_price` (taken as 0 when absent), exactly — all amounts are
whole cents, so the identity is exact to two decimal places. -/
theorem netProfit_eq_components (cfg : AnalyzerConfig) (req : AnalysisRequest)
    (outcomes : List (String × ScrapeResult)) (resp : AnalyzeResponse)
    (hok : analyze cfg req outcomes = .ok resp) :
    ∀ r ∈ resp.marketplaces,
      r.net_profit = r.avg_sold_price - r.platform_fee
        - r.payment_processing_fee - r.estimated_shipping
        - r.packaging_cost - req.purchase_price.getD 0 := by
  obtain ⟨best, rest, hres, rfl⟩ := analyze_ok_elim hok
  intro r hr
  have hmem : r ∈ analyzeResults cfg req outcomes := by rw [hres]; exact hr
  unfold analyzeResults at hmem
  rw [mem_rank] at hmem
  obtain ⟨o, _, rfl⟩ := List.mem_map.mp hmem
  exact computeResult_net cfg req o.1 o.2.observations

theorem netProfit_eq_components_witness :
    r0.net_profit = r0.avg_sold_price - r0.platform_fee
      - r0.payment_processing_fee - r0.estimated_shipping
      - r0.packaging_cost - req0.purchase_price.getD 0 :=
  netProfit_eq_components cfg0 req0 outs0 resp0 rfl r0 (List.mem_cons_self _ _)

/-- C2: when every adapter fails or returns empty, analysis yields the
distinct no-data outcome and never a success with an empty (or undefined
best) marketplaces list; on the analyzer page an absent-or-empty
`marketplaces` payload renders the dedicated no-results state — distinct
from every failure state — and leaves the cache unwritten and the history
unchanged. -/
theorem noData_outcome :
    (∀ (cfg : AnalyzerConfig) (req : AnalysisRequest)
        (outcomes : List (String × ScrapeResult)),
      (∀ o ∈ outcomes, contributing o.2 = false) →
      analyze cfg req outcomes = .error .noData) ∧
    (∀ cfg req outcomes resp, analyze cfg req outcomes = .ok resp →
      resp.marketplaces ≠ []) ∧
    (∀ quota st hist (data : PageData) query priceRepr price condition now,
      (cacheGet st (cacheKey query priceRepr condition) now).1 = none →
      data.marketplaces.getD [] = [] →
      runAnalysis quota st hist (.ok data) query priceRepr price condition
          now =
        ⟨(cacheGet st (cacheKey query priceRepr condition) now).2, hist,
          .noResults, true⟩) ∧
    (∀ msg, Outcome.noResults ≠ Outcome.failed msg) := by
  refine ⟨?_, ?_, ?_, fun msg h => Outcome.noConfusion h⟩
  · intro cfg req outcomes hall
    have h1 : outcomes.filter (fun o => contributing o.2) = [] :=
      List.filter_eq_nil_iff.mpr (fun o ho => by simp [hall o ho])
    have h2 : analyzeResults cfg req outcomes = [] := by
      unfold analyzeResults; rw [h1]; rfl
    unfold analyze
    rw [h2]
  · intro cfg req outcomes resp hok
    obtain ⟨best, rest, hres, rfl⟩ := analyze_ok_elim hok
    simp
  · intro quota st hist data query priceRepr price condition now hmiss hempty
    rcases hget : cacheGet st (cacheKey query priceRepr condition) now
      with ⟨o, st2⟩
    rw [hget] at hmiss
    simp only at hmiss
    subst hmiss
    have hisEmpty : (data.marketplaces.getD []).isEmpty = true := by
      rw [hempty]; rfl
    simp only [runAnalysis]
    rw [hget, hisEmpty]
    rfl

theorem noData_outcome_witness :
    analyze cfg0 req0 [("eBay", { observations := [], status := .empty }),
      ("Mercari", { observations := [⟨100⟩], status := .blocked })] =
      .error .noData :=
  noData_outcome.1 cfg0 req0 _ (by decide)

/-- C3: every successful analysis response has its `marketplaces` array
sorted descending by `net_profit`, ties broken by `sales_volume` descending
then marketplace name ascending (the `rankBefore` order), and
`best_marketplace`/`best_profit` equal the first element's fields. -/
theorem marketplaces_ranked_best_first (cfg : AnalyzerConfig)
    (req : AnalysisRequest) (outcomes : List (String × ScrapeResult))
    (resp : AnalyzeResponse) (hok : analyze cfg req outcomes = .ok resp) :
    List.Sorted rankBefore resp.marketplaces ∧
    ∃ best rest, resp.marketplaces = best :: rest ∧
      resp.best_marketplace = best.marketplace ∧
      resp.best_profit = best.net_profit := by
  obtain ⟨best, rest, hres, rfl⟩ := analyze_ok_elim hok
  constructor
  · show List.Sorted rankBefore (best :: rest)
    rw [← hres]
    unfold analyzeResults
    exact sorted_rank _
  · exact ⟨best, rest, rfl, rfl, rfl⟩

theorem marketplaces_ranked_best_first_witness :
    List.Sorted rankBefore resp0.marketplaces :=
  (marketplaces_ranked_best_first cfg0 req0 outs0 resp0 rfl).1

/-- C5: `roi` is absent whenever `purchase_price` is 0 or absent — the
calculator emits `none` instead of dividing — and the consumers tolerate
it: the page's average-ROI computation keeps only non-null `roi` values
(yielding 0 when none remain) and `formatPercent` maps null to "0%". -/
theorem roi_null_no_div_by_zero :
    (∀ (cfg : AnalyzerConfig) (req : AnalysisRequest) outcomes resp,
      analyze cfg req outcomes = .ok resp →
      (req.purchase_price = none ∨ req.purchase_price = some 0) →
      ∀ r ∈ resp.marketplaces, r.roi = none) ∧
    (∀ mps : List MarketplaceResult,
      (∀ mp ∈ mps.filter (fun mp => mp.roi.isSome), mp.roi ≠ none) ∧
      ((∀ mp ∈ mps, mp.roi = none) → avgRoi mps = 0)) ∧
    formatPercent none = "0%" := by
  refine ⟨?_, ?_, rfl⟩
  · intro cfg req outcomes resp hok hp r hr
    obtain ⟨best, rest, hres, rfl⟩ := analyze_ok_elim hok
    have hmem : r ∈ analyzeResults cfg req outcomes := by rw [hres]; exact hr
    unfold analyzeResults at hmem
    rw [mem_rank] at hmem
    obtain ⟨o, _, rfl⟩ := List.mem_map.mp hmem
    exact computeResult_roi_none cfg req o.1 o.2.observations hp
  · intro mps
    constructor
    · intro mp hmp
      have hs := (List.mem_filter.mp hmp).2
      simp only [Option.isSome_iff_exists] at hs
      obtain ⟨v, hv⟩ := hs
      simp [hv]
    · intro hall
      have hnil : mps.filter (fun mp => mp.roi.isSome) = [] :=
        List.filter_eq_nil_iff.mpr (fun mp hmp => by simp [hall mp hmp])
      unfold avgRoi
      rw [hnil]
      rfl

theorem roi_null_no_div_by_zero_witness : r1.roi = none :=
  roi_null_no_div_by_zero.1 cfg0 req1 outs0 resp1 rfl (Or.inl rfl) r1
    (List.mem_cons_self _ _)

/-- Payload and store used by the cache-hit witness. -/
def pd0 : PageData :=
  { marketplaces := some [], best_marketplace := some "eBay",
    best_profit := some 24651 }

def st4 : Store PageData :=
  [(CACHE_PREFIX ++ cacheKey "a" "null" "new", .good pd0 10)]

/-- C4: a request whose cache key has a non-expired entry performs no
network call: the cached payload is rendered, `fetched` is false, and the
run result does not depend on what the fetch would have returned. -/
theorem cache_hit_no_fetch (quota : Store PageData → String → Stored PageData → Bool)
    (st : Store PageData) (hist : List AnalysisEntry)
    (fetch : Except String PageData) (query priceRepr : String)
    (price : Option ℚ) (condition : String) (now : ℤ) (d : PageData)
    (hhit : (cacheGet st (cacheKey query priceRepr condition) now).1 = some d) :
    runAnalysis quota st hist fetch query priceRepr price condition now =
      ⟨(cacheGet st (cacheKey query priceRepr condition) now).2, hist,
        .rendered d, false⟩ ∧
    ∀ fetch', runAnalysis quota st hist fetch' query priceRepr price condition
        now =
      runAnalysis quota st hist fetch query priceRepr price condition now := by
  rcases hget : cacheGet st (cacheKey query priceRepr condition) now
    with ⟨o, st2⟩
  rw [hget] at hhit
  simp only at hhit
  subst hhit
  constructor
  · simp only [runAnalysis]
    rw [hget]
  · intro fetch'
    simp only [runAnalysis]
    rw [hget]

theorem cache_hit_no_fetch_witness :
    runAnalysis (fun _ _ _ => true) st4 [] (.error "backend offline")
        "a" "null" none "new" 5 =
      ⟨(cacheGet st4 (cacheKey "a" "null" "new") 5).2, [],
        .rendered pd0, false⟩ :=
  (cache_hit_no_fetch (fun _ _ _ => true) st4 [] (.error "backend offline")
    "a" "null" none "new" 5 pd0
    (by simp [cacheGet, getItem, st4, List.find?])).1

/-- C6: `cache.get(key)` after `cache.set(key, value)` and before expiry
returns the stored value, whose JSON serialization equals that of the
stored value — so repeating an identical request within the TTL replays a
byte-identical cached payload. -/
theorem cache_roundtrip_serialization
    (quota : Store Json → String → Stored Json → Bool)
    (st : Store Json) (key : String) (v : Json) (now ttl now' : ℤ)
    (hq : quota st (CACHE_PREFIX ++ key) (.good v (now + ttl)) = true)
    (hfresh : now' ≤ now + ttl) :
    (cacheGet (cacheSet quota st key v now ttl) key now').1 = some v ∧
    (cacheGet (cacheSet quota st key v now ttl) key now').1.map serialize =
      some (serialize v) := by
  have hset : cacheSet quota st key v now ttl =
      setItem st (CACHE_PREFIX ++ key) (.good v (now + ttl)) := by
    unfold cacheSet
    simp [hq]
  have hgi : getItem (cacheSet quota st key v now ttl) (CACHE_PREFIX ++ key) =
      some (.good v (now + ttl)) := by
    rw [hset]; exact getItem_setItem_self ..
  have hval : cacheGet (cacheSet quota st key v now ttl) key now' =
      (some v, cacheSet quota st key v now ttl) := by
    simp only [cacheGet, hgi]
    rw [if_neg (not_lt.mpr hfresh)]
  rw [hval]
  exact ⟨rfl, rfl⟩

theorem cache_roundtrip_serialization_witness :
    (cacheGet (cacheSet (fun _ _ _ => true) [] "analysis_widget_12.5_new"
        (Json.str "payload") 0 DEFAULT_TTL) "analysis_widget_12.5_new"
        60000).1 = some (Json.str "payload") :=
  (cache_roundtrip_serialization (fun _ _ _ => true) [] "analysis_widget_12.5_new"
    (Json.str "payload") 0 DEFAULT_TTL 60000 rfl (by decide)).1

/-- C7: the cache-key derivation on the submit path is deterministic and
pure: the key is exactly the trimmed, lower-cased query interpolated with
price and condition; identical raw inputs always yield the identical key;
and queries equal after trimming and lower-casing share one cache entry. -/
theorem cacheKey_deterministic :
    (∀ raw priceRepr condition, submitKey raw priceRepr condition =
      "analysis_" ++ raw.trim.toLower ++ "_" ++ priceRepr ++ "_" ++ condition) ∧
    (∀ r1 r2 p1 p2 c1 c2, r1 = r2 → p1 = p2 → c1 = c2 →
      submitKey r1 p1 c1 = submitKey r2 p2 c2) ∧
    (∀ r1 r2 p c, r1.trim.toLower = r2.trim.toLower →
      submitKey r1 p c = submitKey r2 p c) := by
  refine ⟨fun _ _ _ => rfl, ?_, ?_⟩
  · intro r1 r2 p1 p2 c1 c2 h1 h2 h3
    rw [h1, h2, h3]
  · intro r1 r2 p c h
    unfold submitKey cacheKey
    rw [h]

theorem cacheKey_deterministic_witness :
    submitKey "Pokemon 151 Booster Bundle" "25_new" "new" =
      submitKey "Pokemon 151 Booster Bundle" "25_new" "new" :=
  cacheKey_deterministic.2.1 "Pokemon 151 Booster Bundle"
    "Pokemon 151 Booster Bundle" "25_new" "25_new" "new" "new" rfl rfl rfl

/-- Store used by the cache-get witness: one expired entry. -/
def st8 : Store Json :=
  [(CACHE_PREFIX ++ "k", .good (Json.num 1) 5)]

/-- C8: `cache.get` is total and never stale: an absent key, a corrupt slot
or an expired entry yields null (the expired entry being removed from
storage), and every returned payload is backed by an entry whose expiry has
not passed. -/
theorem cacheGet_total_no_stale {α : Type} (st : Store α) (key : String)
    (now : ℤ) :
    (getItem st (CACHE_PREFIX ++ key) = none →
      cacheGet st key now = (none, st)) ∧
    (getItem st (CACHE_PREFIX ++ key) = some .bad →
      cacheGet st key now = (none, st)) ∧
    (∀ (d : α) expires,
      getItem st (CACHE_PREFIX ++ key) = some (.good d expires) →
      now > expires →
      cacheGet st key now = (none, removeItem st (CACHE_PREFIX ++ key))) ∧
    (∀ d, (cacheGet st key now).1 = some d →
      ∃ expires, getItem st (CACHE_PREFIX ++ key) = some (.good d expires) ∧
        now ≤ expires) := by
  refine ⟨?_, ?_, ?_, ?_⟩
  · intro h
    simp only [cacheGet, h]
  · intro h
    simp only [cacheGet, h]
  · intro d expires h hexp
    simp only [cacheGet, h]
    rw [if_pos hexp]
  · intro d h
    rcases hgi : getItem st (CACHE_PREFIX ++ key) with _ | s
    · simp only [cacheGet, hgi] at h
      exact Option.noConfusion h
    · rcases s with ⟨d', expires⟩ | _
      · simp only [cacheGet, hgi] at h
        by_cases hexp : now > expires
        · rw [if_pos hexp] at h
          simp at h
        · rw [if_neg hexp] at h
          simp only [Prod.fst, Option.some.injEq] at h
          subst h
          exact ⟨expires, rfl, not_lt.mp hexp⟩
      · simp only [cacheGet, hgi] at h
        exact Option.noConfusion h

theorem cacheGet_total_no_stale_witness :
    cacheGet st8 "k" 10 = (none, removeItem st8 (CACHE_PREFIX ++ "k")) :=
  (cacheGet_total_no_stale st8 "k" 10).2.2.1 (Json.num 1) 5
    (by simp [getItem, st8, List.find?]) (by decide)

/-- C9: `store.saveAnalysis` keeps the history bounded and ordered: at most
50 entries, the just-saved analysis at index 0, and the retained previous
entries (the first 49) follow in their previous relative order. -/
theorem history_bounded_ordered (hist : List AnalysisEntry)
    (e : AnalysisEntry) :
    (saveAnalysisHistory hist e).length ≤ 50 ∧
    (saveAnalysisHistory hist e).head? = some e ∧
    saveAnalysisHistory hist e = e :: hist.take 49 ∧
    (saveAnalysisHistory hist e).tail.Sublist hist := by
  have hcons : saveAnalysisHistory hist e = e :: hist.take 49 := rfl
  refine ⟨?_, ?_, hcons, ?_⟩
  · unfold saveAnalysisHistory
    simp [List.length_take_le]
  · rw [hcons]
    rfl
  · rw [hcons]
    exact List.take_sublist 49 hist

/-- Store used by the cache-set witness: one live entry under another key. -/
def st10 : Store Json :=
  [("profiteer_store_watchlist", .good (Json.num 2) 100)]

/-- C10: `cache.set` never fails: the resulting store is the direct write,
the write after clearing expired entries, or — when both writes are
refused — just the cleared store; and in every case each well-formed,
unexpired slot under a different key survives intact. -/
theorem cacheSet_preserves_live_entries {α : Type}
    (quota : Store α → String → Stored α → Bool) (st : Store α)
    (key : String) (data : α) (now ttl : ℤ) :
    (cacheSet quota st key data now ttl =
        setItem st (CACHE_PREFIX ++ key) (.good data (now + ttl)) ∨
      cacheSet quota st key data now ttl =
        setItem (clearExpired st now) (CACHE_PREFIX ++ key)
          (.good data (now + ttl)) ∨
      cacheSet quota st key data now ttl = clearExpired st now) ∧
    (∀ k' (d : α) expires, k' ≠ CACHE_PREFIX ++ key →
      getItem st k' = some (.good d expires) → now ≤ expires →
      getItem (cacheSet quota st key data now ttl) k' =
        some (.good d expires)) := by
  have hform : cacheSet quota st key data now ttl =
        setItem st (CACHE_PREFIX ++ key) (.good data (now + ttl)) ∨
      cacheSet quota st key data now ttl =
        setItem (clearExpired st now) (CACHE_PREFIX ++ key)
          (.good data (now + ttl)) ∨
      cacheSet quota st key data now ttl = clearExpired st now := by
    by_cases h1 : quota st (CACHE_PREFIX ++ key) (.good data (now + ttl))
    · refine Or.inl ?_
      simp only [cacheSet]
      rw [if_pos h1]
    · by_cases h2 : quota (clearExpired st now) (CACHE_PREFIX ++ key)
          (.good data (now + ttl))
      · refine Or.inr (Or.inl ?_)
        simp only [cacheSet]
        rw [if_neg h1, if_pos h2]
      · refine Or.inr (Or.inr ?_)
        simp only [cacheSet]
        rw [if_neg h1, if_neg h2]
  refine ⟨hform, ?_⟩
  intro k' d expires hne hgi hle
  rcases hform with h | h | h <;> rw [h]
  · rw [getItem_setItem_ne _ _ hne]
    exact hgi
  · rw [getItem_setItem_ne _ _ hne]
    exact getItem_clearExpired_good st k' hgi hle
  · exact getItem_clearExpired_good st k' hgi hle

theorem cacheSet_preserves_live_entries_witness :
    getItem (cacheSet (fun _ _ _ => false) st10 "k" Json.null 0 DEFAULT_TTL)
        "profiteer_store_watchlist" = some (.good (Json.num 2) 100) :=
  (cacheSet_preserves_live_entries (fun _ _ _ => false) st10 "k" Json.null 0
    DEFAULT_TTL).2 "profiteer_store_watchlist" (Json.num 2) 100 (by decide)
    (by simp [getItem, st10, List.find?]) (by decide)
